import Mathlib

/-!
Verification of the paper-trader portfolio core: the ledger (trade
execution in `backend/src/routes/trades.js`), the valuation engine
(`backend/src/lib/portfolio.js`), the snapshot policy
(`backend/src/routes/portfolio.js`) and lazy account creation
(`backend/src/lib/accounts.js`).

JavaScript numbers are modelled as exact rationals (`ℚ`).  The source's
`round` helper adds `Number.EPSILON` before scaling purely to counter
binary floating-point drift; over exact rationals there is no drift, so
rounding is modelled as `⌊value * 10^d + 1/2⌋ / 10^d`, which is what
`Math.round((value + ε) * factor) / factor` computes on exact inputs.
-/

deriving instance DecidableEq for Except

namespace PaperTrader

namespace Finance

/-- Models `round(value, decimals)` from `backend/src/lib/finance.js`:
`Math.round((value + Number.EPSILON) * factor) / factor` with
`factor = 10 ** decimals`, i.e. round half towards positive infinity at
`decimals` decimal places. -/
def round (value : ℚ) (decimals : ℕ) : ℚ :=
  ⌊value * 10 ^ decimals + 1 / 2⌋ / 10 ^ decimals

/-- Models `roundMoney` from `backend/src/lib/finance.js`. -/
def roundMoney (value : ℚ) : ℚ := round value 2

/-- Models `roundShares` from `backend/src/lib/finance.js`. -/
def roundShares (value : ℚ) : ℚ := round value 4

end Finance

open Finance

/-- States that `x` is an integer multiple of `10^(-d)`, i.e. a value
with at most `d` decimal places. -/
def IsQ (d : ℕ) (x : ℚ) : Prop := ∃ n : ℤ, x = n / 10 ^ d

/-- A market quote as consumed by the trade route: the fields of the
object built by `getQuote` in `backend/src/lib/finnhub.js` that the
ledger and valuation code read. -/
structure Quote where
  symbol : String
  current : ℚ
  change : ℚ
  percentChange : ℚ
deriving DecidableEq

/-- A row of the `positions` table (`shares`, `avg_cost` keyed by
symbol for a fixed user). -/
structure Position where
  symbol : String
  shares : ℚ
  avg_cost : ℚ
deriving DecidableEq

/-- Trade side, `side ∈ {BUY, SELL}`. -/
inductive Side
  | BUY
  | SELL
deriving DecidableEq

/-- A row of the append-only `trades` table. -/
structure TradeRecord where
  symbol : String
  side : Side
  quantity : ℚ
  price : ℚ
deriving DecidableEq

/-- The ledger rows belonging to one user: the account's cash balance,
the user's position rows and the user's trade log. -/
structure LedgerState where
  cash_balance : ℚ
  positions : List Position
  trades : List TradeRecord
deriving DecidableEq

/-- The error responses of the trade route (`router.post('/')` in
`backend/src/routes/trades.js`). -/
inductive TradeError
  | QuoteUnavailable
  | QuantityTooSmall
  | InsufficientFunds
  | InsufficientShares
deriving DecidableEq

/-- Models the position lookup
`.from('positions').select(...).eq('user_id', userId).eq('symbol', symbol).maybeSingle()`. -/
def findPosition (positions : List Position) (symbol : String) : Option Position :=
  positions.find? (fun p => p.symbol == symbol)

/-- Models the BUY persistence step: update the matching position row
with the new shares and average cost, or insert a fresh row when none
exists. -/
def upsertPosition (positions : List Position) (symbol : String)
    (shares avgCost : ℚ) : List Position :=
  if (findPosition positions symbol).isSome then
    positions.map fun p =>
      if p.symbol = symbol then { p with shares := shares, avg_cost := avgCost } else p
  else
    positions ++ [{ symbol := symbol, shares := shares, avg_cost := avgCost }]

/-- Models the SELL delete branch: remove the position row for the
traded symbol. -/
def deletePosition (positions : List Position) (symbol : String) : List Position :=
  positions.filter fun p => !(p.symbol == symbol)

/-- Models the SELL update branch: `.update({ shares: updatedShares })`
on the matching position row (`avg_cost` untouched). -/
def updateShares (positions : List Position) (symbol : String)
    (shares : ℚ) : List Position :=
  positions.map fun p =>
    if p.symbol = symbol then { p with shares := shares } else p

/-- The BUY branch of the trade handler (`backend/src/routes/trades.js`
lines 67-113 plus the trade insert): reject when
`cash_balance < notional`, otherwise debit cash, upsert the position
with the blended average cost and append a trade row. -/
def executeBuy (s : LedgerState) (symbol : String) (quantity price : ℚ) :
    Except TradeError LedgerState :=
  let notional := roundMoney (price * quantity)
  if s.cash_balance < notional then
    .error .InsufficientFunds
  else
    let existingPos := findPosition s.positions symbol
    let existingShares := (existingPos.map Position.shares).getD 0
    let existingAvgCost := (existingPos.map Position.avg_cost).getD 0
    let updatedShares := roundShares (existingShares + quantity)
    let updatedAvgCost :=
      roundMoney ((existingShares * existingAvgCost + quantity * price) / updatedShares)
    .ok { cash_balance := roundMoney (s.cash_balance - notional),
          positions := upsertPosition s.positions symbol updatedShares updatedAvgCost,
          trades := s.trades ++ [⟨symbol, Side.BUY, quantity, price⟩] }

/-- The SELL branch of the trade handler (`backend/src/routes/trades.js`
lines 114-151 plus the trade insert): reject when there is no position
or `existingShares < quantity`, otherwise credit cash, delete the row
when the remaining rounded share count is `≤ 0` and update only the
share count otherwise, then append a trade row. -/
def executeSell (s : LedgerState) (symbol : String) (quantity price : ℚ) :
    Except TradeError LedgerState :=
  let notional := roundMoney (price * quantity)
  let existingPos := findPosition s.positions symbol
  let existingShares := (existingPos.map Position.shares).getD 0
  if existingPos.isNone ∨ existingShares < quantity then
    .error .InsufficientShares
  else
    let updatedShares := roundShares (existingShares - quantity)
    .ok { cash_balance := roundMoney (s.cash_balance + notional),
          positions :=
            if updatedShares ≤ 0 then deletePosition s.positions symbol
            else updateShares s.positions symbol updatedShares,
          trades := s.trades ++ [⟨symbol, Side.SELL, quantity, price⟩] }

/-- Models `router.post('/')` of `backend/src/routes/trades.js` acting
on one user's ledger rows: quote validation (`!quote || !quote.current
|| quote.current <= 0`), quantity rounding and rejection, price and
notional rounding, then the BUY or SELL branch.  An `.error` result
corresponds to a 4xx response issued before any store write. -/
def executeTrade (s : LedgerState) (symbol : String) (side : Side)
    (rawQuantity : ℚ) (quote : Option Quote) : Except TradeError LedgerState :=
  match quote with
  | none => .error .QuoteUnavailable
  | some q =>
    if q.current ≤ 0 then .error .QuoteUnavailable
    else
      let quantity := roundShares rawQuantity
      if quantity ≤ 0 then .error .QuantityTooSmall
      else
        let price := roundMoney q.current
        match side with
        | .BUY => executeBuy s symbol quantity price
        | .SELL => executeSell s symbol quantity price

/-- The ledger rows for the user after the trade request finishes: the
result state on success, the untouched input state on a rejected
request (the source returns the 4xx response before issuing any write
to the store). -/
def storeAfterTrade (s : LedgerState) (symbol : String) (side : Side)
    (rawQuantity : ℚ) (quote : Option Quote) : LedgerState :=
  match executeTrade s symbol side rawQuantity quote with
  | .ok s' => s'
  | .error _ => s
/-- One BUY applied to a position's `(shares, avgCost)` pair — exactly
the update of the BUY branch (`backend/src/routes/trades.js` lines
73-76): `updatedShares = round4(existingShares + quantity)` and
`updatedAvgCost = round2((existingShares*existingAvgCost +
quantity*price) / updatedShares)`.  The order is a `(quantity, price)`
pair as executed, i.e. with `quantity` already rounded to 4 decimals. -/
def buyStep (acc : ℚ × ℚ) (order : ℚ × ℚ) : ℚ × ℚ :=
  (roundShares (acc.1 + order.1),
   roundMoney ((acc.1 * acc.2 + order.1 * order.2) / roundShares (acc.1 + order.1)))

/-- The `(shares, avgCost)` pair after a sequence of BUY orders on one
symbol starting from no position (`existingShares = 0`,
`existingAvgCost = 0`). -/
def buyFold (orders : List (ℚ × ℚ)) : ℚ × ℚ := orders.foldl buyStep (0, 0)

/-- Total quantity bought, `Σ qty_i`. -/
def totalQty (orders : List (ℚ × ℚ)) : ℚ := (orders.map Prod.fst).sum

/-- Total cost paid, `Σ (qty_i * price_i)`. -/
def totalCost (orders : List (ℚ × ℚ)) : ℚ := (orders.map fun t => t.1 * t.2).sum

/-- A holding as produced by `calculateHoldings` in
`backend/src/lib/portfolio.js`: a position enriched with live market
data. -/
structure Holding where
  symbol : String
  shares : ℚ
  avgCost : ℚ
  currentPrice : ℚ
  dailyPercent : ℚ
  marketValue : ℚ
  gain : ℚ
  gainPercent : ℚ
deriving DecidableEq

/-- The summary object produced by `calculateNetWorth`. -/
structure Summary where
  holdingsValue : ℚ
  netWorth : ℚ
  dailyChange : ℚ
  dailyChangePercent : ℚ
deriving DecidableEq

/-- Models the lookup `quotesBySymbol[symbol]` against the map built by
`getQuotes` in `backend/src/lib/quotes.js`, which keys each fetched
quote by its `symbol` field; a symbol with no entry yields `none`. -/
def quotesFind (quotes : List Quote) (symbol : String) : Option Quote :=
  quotes.find? (fun q => q.symbol == symbol)

/-- Models `calculateHoldings(positions, quotesBySymbol)` from
`backend/src/lib/portfolio.js` lines 108-129: each position is mapped
independently; a missing quote contributes `currentPrice = 0` and
`dailyPercent = 0`. -/
def calculateHoldings (positions : List Position) (quotes : List Quote) : List Holding :=
  positions.map fun position =>
    let quote := quotesFind quotes position.symbol
    let currentPrice := match quote with
      | some q => q.current
      | none => 0
    let dailyPercent := match quote with
      | some q => q.percentChange
      | none => 0
    let marketValue := currentPrice * position.shares
    let costBasis := position.avg_cost * position.shares
    let gain := marketValue - costBasis
    let gainPercent := if costBasis > 0 then gain / costBasis * 100 else 0
    { symbol := position.symbol,
      shares := roundShares position.shares,
      avgCost := roundMoney position.avg_cost,
      currentPrice := roundMoney currentPrice,
      dailyPercent := roundMoney dailyPercent,
      marketValue := roundMoney marketValue,
      gain := roundMoney gain,
      gainPercent := roundMoney gainPercent }

/-- The loop body of the `dailyChange` reduction in `calculateNetWorth`
(`backend/src/lib/portfolio.js` lines 135-139): the quote's absolute
day change times the held shares, `0` when the quote is missing. -/
def dailyChangeTerm (quotes : List Quote) (holding : Holding) : ℚ :=
  (match quotesFind quotes holding.symbol with
   | some q => q.change
   | none => 0) * holding.shares

/-- Models `calculateNetWorth(cashBalance, holdings, quotesBySymbol)`
from `backend/src/lib/portfolio.js` lines 131-150. -/
def calculateNetWorth (cashBalance : ℚ) (holdings : List Holding)
    (quotes : List Quote) : Summary :=
  let holdingsValue := holdings.foldl (fun sum h => sum + h.marketValue) 0
  let netWorth := cashBalance + holdingsValue
  let dailyChange := holdings.foldl (fun sum h => sum + dailyChangeTerm quotes h) 0
  let priorNetWorth := netWorth - dailyChange
  let dailyChangePercent := if priorNetWorth > 0 then dailyChange / priorNetWorth * 100 else 0
  { holdingsValue := roundMoney holdingsValue,
    netWorth := roundMoney netWorth,
    dailyChange := roundMoney dailyChange,
    dailyChangePercent := roundMoney dailyChangePercent }

/-- Models `buildPortfolioState` from
`backend/src/lib/portfolioService.js` restricted to the summary: the
quote map fetched from the external provider is passed explicitly. -/
def buildSummary (positions : List Position) (cashBalance : ℚ)
    (quotes : List Quote) : Summary :=
  calculateNetWorth cashBalance (calculateHoldings positions quotes) quotes

/-- A row of the append-only `portfolio_snapshots` table for one user;
`timestamp` is in milliseconds since the epoch. -/
structure Snapshot where
  net_worth : ℚ
  timestamp : ℚ
deriving DecidableEq

/-- Models `insertSnapshot(userId, netWorth, timestamp)` from
`backend/src/lib/portfolio.js`: append a row with the rounded net
worth.  The store is kept most-recent-first, which is faithful as long
as inserts carry nondecreasing timestamps. -/
def insertSnapshot (snaps : List Snapshot) (netWorth : ℚ) (now : ℚ) : List Snapshot :=
  { net_worth := roundMoney netWorth, timestamp := now } :: snaps

/-- Models `getLatestSnapshot(userId)` from
`backend/src/lib/portfolio.js`: `order('timestamp', descending).limit(1).maybeSingle()`
over a most-recent-first store. -/
def getLatestSnapshot (snaps : List Snapshot) : Option Snapshot := snaps.head?

/-- The default of `config.snapshotEveryMinutes`
(`backend/src/config.js`: `parseNumber(process.env.PORTFOLIO_SNAPSHOT_MINUTES, 60)`). -/
def snapshotEveryMinutesDefault : ℚ := 60

/-- Models `maybeCreateSnapshot(userId, netWorth)` from
`backend/src/routes/portfolio.js` lines 38-52: insert when no snapshot
exists or when `(now - last.timestamp) / (1000*60) >= snapshotEveryMinutes`,
otherwise return the existing latest snapshot with the store
untouched.  `now` is the current time in milliseconds and
`intervalMinutes` is `config.snapshotEveryMinutes`. -/
def maybeCreateSnapshot (snaps : List Snapshot) (netWorth : ℚ) (now : ℚ)
    (intervalMinutes : ℚ) : Snapshot × List Snapshot :=
  match getLatestSnapshot snaps with
  | none =>
    ({ net_worth := roundMoney netWorth, timestamp := now },
     insertSnapshot snaps netWorth now)
  | some latest =>
    if (now - latest.timestamp) / (1000 * 60) ≥ intervalMinutes then
      ({ net_worth := roundMoney netWorth, timestamp := now },
       insertSnapshot snaps netWorth now)
    else
      (latest, snaps)

/-- Models the tail of `router.post('/')` in
`backend/src/routes/trades.js` (lines 170-187): after a successful
trade the route rebuilds the summary via `buildPortfolioState` using
the post-trade cash `account.cash_balance ∓ notional` and appends a
snapshot with `insertSnapshot(userId, summary.netWorth)`; a rejected
trade returns its 4xx response before any write, so it produces only
the error.  `marketQuotes` is the quote map fetched for the user's
positions. -/
def tradePost (s : LedgerState) (snaps : List Snapshot) (symbol : String)
    (side : Side) (rawQuantity : ℚ) (quote : Option Quote)
    (marketQuotes : List Quote) (now : ℚ) :
    Except TradeError (LedgerState × List Snapshot) :=
  match executeTrade s symbol side rawQuantity quote, quote with
  | .error e, _ => .error e
  | .ok _, none => .error .QuoteUnavailable
  | .ok s', some q =>
    let notional := roundMoney (roundMoney q.current * roundShares rawQuantity)
    let postCash := match side with
      | Side.BUY => s.cash_balance - notional
      | Side.SELL => s.cash_balance + notional
    .ok (s', insertSnapshot snaps (buildSummary s'.positions postCash marketQuotes).netWorth now)

/-- The ledger rows and snapshot rows after the trade request finishes:
the updated stores on success, the untouched input stores on a
rejected request. -/
def storeAfterTradePost (s : LedgerState) (snaps : List Snapshot) (symbol : String)
    (side : Side) (rawQuantity : ℚ) (quote : Option Quote)
    (marketQuotes : List Quote) (now : ℚ) : LedgerState × List Snapshot :=
  match tradePost s snaps symbol side rawQuantity quote marketQuotes now with
  | .ok r => r
  | .error _ => (s, snaps)

/-- A row of the `accounts` table for one user. -/
structure Account where
  cash_balance : ℚ
deriving DecidableEq

/-- A Postgres error as surfaced by the store client; `code` is the
SQLSTATE string (`'23505'` is unique violation). -/
structure PgError where
  code : String
deriving DecidableEq

/-- The default of `config.defaultCashBalance`
(`backend/src/config.js`: `parseNumber(process.env.DEFAULT_CASH_BALANCE, 100000)`). -/
def defaultCashBalance : ℚ := 100000

/-- Models `getAccount(userId)` from `backend/src/lib/accounts.js`
against the user's rows of the `accounts` table. -/
def getAccount (rows : List Account) : Option Account := rows.head?

/-- Models the insert into `accounts`: the unique index on `user_id`
makes the insert fail with SQLSTATE 23505 exactly when a row for the
user already exists, and append the row otherwise. -/
def insertAccount (rows : List Account) (fresh : Account) :
    Except PgError (Account × List Account) :=
  match rows with
  | [] => .ok (fresh, [fresh])
  | _ :: _ => .error { code := "23505" }

/-- Models `ensureAccount(userId)` from `backend/src/lib/accounts.js`
lines 26-55.  `rows0` is the table at the initial `getAccount` read and
`rows1` the table at insert time — they differ when a concurrent
request inserts the account in between.  Return the account when the
first read finds one; otherwise insert, and on a unique-violation
error (`code === '23505'`) re-read and return the existing account,
propagating the error only if the re-read still finds nothing. -/
def ensureAccount (rows0 rows1 : List Account) (fresh : Account) :
    Except PgError (Account × List Account) :=
  match getAccount rows0 with
  | some a => .ok (a, rows1)
  | none =>
    match insertAccount rows1 fresh with
    | .ok (a, rows') => .ok (a, rows')
    | .error e =>
      if e.code = "23505" then
        match getAccount rows1 with
        | some a => .ok (a, rows1)
        | none => .error e
      else
        .error e


theorem IsQ.zero (d : ℕ) : IsQ d 0 := ⟨0, by simp⟩

theorem IsQ.add {d : ℕ} {x y : ℚ} (hx : IsQ d x) (hy : IsQ d y) :
    IsQ d (x + y) := by
  obtain ⟨m, rfl⟩ := hx
  obtain ⟨n, rfl⟩ := hy
  exact ⟨m + n, by push_cast; ring⟩

theorem IsQ.sub {d : ℕ} {x y : ℚ} (hx : IsQ d x) (hy : IsQ d y) :
    IsQ d (x - y) := by
  obtain ⟨m, rfl⟩ := hx
  obtain ⟨n, rfl⟩ := hy
  exact ⟨m - n, by push_cast; ring⟩

theorem isQ_round (x : ℚ) (d : ℕ) : IsQ d (Finance.round x d) :=
  ⟨⌊x * 10 ^ d + 1 / 2⌋, rfl⟩

theorem round_eq_self {d : ℕ} {x : ℚ} (h : IsQ d x) :
    Finance.round x d = x := by
  obtain ⟨n, rfl⟩ := h
  have hf : ((10 : ℚ) ^ d) ≠ 0 := by positivity
  unfold Finance.round
  rw [div_mul_cancel₀ _ hf, Int.floor_int_add]
  norm_num

theorem abs_round_sub_le (x : ℚ) (d : ℕ) :
    |Finance.round x d - x| ≤ 1 / (2 * 10 ^ d) := by
  have hf : (0 : ℚ) < 10 ^ d := by positivity
  have h1 : ((⌊x * 10 ^ d + 1 / 2⌋ : ℤ) : ℚ) ≤ x * 10 ^ d + 1 / 2 :=
    Int.floor_le _
  have h2 : x * 10 ^ d + 1 / 2 - 1 < ((⌊x * 10 ^ d + 1 / 2⌋ : ℤ) : ℚ) :=
    Int.sub_one_lt_floor _
  have heq : Finance.round x d - x =
      (((⌊x * 10 ^ d + 1 / 2⌋ : ℤ) : ℚ) - x * 10 ^ d) / 10 ^ d := by
    unfold Finance.round
    field_simp
    ring
  rw [heq, abs_div, abs_of_pos hf]
  have habs : |((⌊x * 10 ^ d + 1 / 2⌋ : ℤ) : ℚ) - x * 10 ^ d| ≤ 1 / 2 :=
    abs_le.mpr ⟨by linarith, by linarith⟩
  calc |((⌊x * 10 ^ d + 1 / 2⌋ : ℤ) : ℚ) - x * 10 ^ d| / 10 ^ d
      ≤ (1 / 2) / 10 ^ d := (div_le_div_right hf).mpr habs
    _ = 1 / (2 * 10 ^ d) := by ring

theorem round_nonneg {x : ℚ} (d : ℕ) (h : 0 ≤ x) :
    0 ≤ Finance.round x d := by
  unfold Finance.round
  apply div_nonneg _ (by positivity)
  have hy : (0 : ℚ) ≤ x * 10 ^ d + 1 / 2 := by positivity
  exact_mod_cast Int.floor_nonneg.mpr hy

theorem round_pos {x : ℚ} {d : ℕ} (h : 1 / 10 ^ d ≤ x) :
    0 < Finance.round x d := by
  have hf : (0 : ℚ) < 10 ^ d := by positivity
  unfold Finance.round
  apply div_pos _ hf
  have hy : (1 : ℚ) ≤ x * 10 ^ d := by
    rw [div_le_iff hf] at h
    linarith
  have h1 : (1 : ℤ) ≤ ⌊x * 10 ^ d + 1 / 2⌋ :=
    Int.le_floor.mpr (by push_cast; linarith)
  exact_mod_cast lt_of_lt_of_le zero_lt_one h1

theorem roundMoney_eq_self (x : ℚ) (n : ℤ) (h : x * 100 = (n : ℚ)) :
    Finance.roundMoney x = x :=
  round_eq_self ⟨n, by rw [← h]; norm_num⟩

theorem roundShares_eq_self (x : ℚ) (n : ℤ) (h : x * 10000 = (n : ℚ)) :
    Finance.roundShares x = x :=
  round_eq_self ⟨n, by rw [← h]; norm_num⟩

theorem isQ_pos_le {d : ℕ} {x : ℚ} (hq : IsQ d x) (hx : 0 < x) :
    1 / 10 ^ d ≤ x := by
  obtain ⟨n, rfl⟩ := hq
  have hf : (0 : ℚ) < 10 ^ d := by positivity
  have hn : (0 : ℚ) < (n : ℚ) := by
    by_contra hc
    push_neg at hc
    have : (n : ℚ) / 10 ^ d ≤ 0 := div_nonpos_of_nonpos_of_nonneg hc hf.le
    linarith
  have h1 : (1 : ℚ) ≤ (n : ℚ) := by
    have : (0 : ℤ) < n := by exact_mod_cast hn
    exact_mod_cast this
  exact (div_le_div_right hf).mpr h1

theorem executeTrade_buy_eq (s : LedgerState) (symbol : String) (rawQuantity : ℚ)
    (q : Quote) (hq : 0 < q.current) (hqty : 0 < Finance.roundShares rawQuantity) :
    executeTrade s symbol Side.BUY rawQuantity (some q) =
      executeBuy s symbol (Finance.roundShares rawQuantity) (Finance.roundMoney q.current) := by
  simp only [executeTrade]
  rw [if_neg (not_le.mpr hq), if_neg (not_le.mpr hqty)]

theorem executeTrade_sell_eq (s : LedgerState) (symbol : String) (rawQuantity : ℚ)
    (q : Quote) (hq : 0 < q.current) (hqty : 0 < Finance.roundShares rawQuantity) :
    executeTrade s symbol Side.SELL rawQuantity (some q) =
      executeSell s symbol (Finance.roundShares rawQuantity) (Finance.roundMoney q.current) := by
  simp only [executeTrade]
  rw [if_neg (not_le.mpr hq), if_neg (not_le.mpr hqty)]

/-- C2: with a valid quote and a positive rounded quantity, a BUY is
rejected with `InsufficientFundsError` exactly when
`cashBalance < notional` with `notional = round2(round2(price) * round4(quantity))`;
a rejected request leaves the ledger rows untouched, and an accepted
one debits the cash balance by exactly `notional` and appends exactly
one BUY trade row. -/
theorem C2_buy_insufficient_funds (s : LedgerState) (symbol : String)
    (rawQuantity : ℚ) (q : Quote) (snaps : List Snapshot)
    (marketQuotes : List Quote) (now : ℚ) (hq : 0 < q.current)
    (hqty : 0 < Finance.roundShares rawQuantity)
    (hcash : Finance.roundMoney s.cash_balance = s.cash_balance) :
    (executeTrade s symbol Side.BUY rawQuantity (some q) = .error .InsufficientFunds ↔
      s.cash_balance <
        Finance.roundMoney (Finance.roundMoney q.current * Finance.roundShares rawQuantity)) ∧
    (s.cash_balance <
        Finance.roundMoney (Finance.roundMoney q.current * Finance.roundShares rawQuantity) →
      storeAfterTrade s symbol Side.BUY rawQuantity (some q) = s ∧
      storeAfterTradePost s snaps symbol Side.BUY rawQuantity (some q) marketQuotes now =
        (s, snaps)) ∧
    (Finance.roundMoney (Finance.roundMoney q.current * Finance.roundShares rawQuantity) ≤
        s.cash_balance →
      ∃ s', executeTrade s symbol Side.BUY rawQuantity (some q) = .ok s' ∧
        s'.cash_balance = s.cash_balance -
          Finance.roundMoney (Finance.roundMoney q.current * Finance.roundShares rawQuantity) ∧
        s'.trades = s.trades ++
          [⟨symbol, Side.BUY, Finance.roundShares rawQuantity, Finance.roundMoney q.current⟩]) := by
  have hbuy := executeTrade_buy_eq s symbol rawQuantity q hq hqty
  by_cases hlt : s.cash_balance <
      Finance.roundMoney (Finance.roundMoney q.current * Finance.roundShares rawQuantity)
  · have herr : executeTrade s symbol Side.BUY rawQuantity (some q) =
        .error .InsufficientFunds := by
      rw [hbuy]
      simp only [executeBuy, if_pos hlt]
    refine ⟨⟨fun _ => hlt, fun _ => herr⟩, fun _ => ⟨?_, ?_⟩,
      fun hle => absurd hlt (not_lt.mpr hle)⟩
    · simp only [storeAfterTrade, herr]
    · simp only [storeAfterTradePost, tradePost, herr]
  · have hok : executeTrade s symbol Side.BUY rawQuantity (some q) =
        .ok { cash_balance :=
                Finance.roundMoney (s.cash_balance -
                  Finance.roundMoney (Finance.roundMoney q.current * Finance.roundShares rawQuantity)),
              positions := upsertPosition s.positions symbol
                (Finance.roundShares
                  (((findPosition s.positions symbol).map Position.shares).getD 0 +
                    Finance.roundShares rawQuantity))
                (Finance.roundMoney
                  ((((findPosition s.positions symbol).map Position.shares).getD 0 *
                      ((findPosition s.positions symbol).map Position.avg_cost).getD 0 +
                    Finance.roundShares rawQuantity * Finance.roundMoney q.current) /
                    Finance.roundShares
                      (((findPosition s.positions symbol).map Position.shares).getD 0 +
                        Finance.roundShares rawQuantity))),
              trades := s.trades ++
                [⟨symbol, Side.BUY, Finance.roundShares rawQuantity,
                  Finance.roundMoney q.current⟩] } := by
      rw [hbuy]
      simp only [executeBuy, if_neg hlt]
    refine ⟨⟨fun h => ?_, fun h => absurd h hlt⟩, fun h => absurd h hlt, fun _ => ?_⟩
    · rw [hok] at h
      exact absurd h (by simp)
    · refine ⟨_, hok, ?_, rfl⟩
      have hq2 : IsQ 2 s.cash_balance := hcash ▸ isQ_round s.cash_balance 2
      exact round_eq_self (hq2.sub (isQ_round _ 2))

/-- Witness for C2 at the specification's concrete scenario: cash 100,
BUY 1 share at price 1000 is rejected with `InsufficientFundsError`
and the ledger rows are unchanged. -/
theorem C2_buy_insufficient_funds_witness :
    executeTrade ⟨100, [], []⟩ "AAPL" Side.BUY 1 (some ⟨"AAPL", 1000, 0, 0⟩) =
      .error .InsufficientFunds ∧
    storeAfterTrade ⟨100, [], []⟩ "AAPL" Side.BUY 1 (some ⟨"AAPL", 1000, 0, 0⟩) =
      ⟨100, [], []⟩ ∧
    storeAfterTradePost ⟨100, [], []⟩ [] "AAPL" Side.BUY 1 (some ⟨"AAPL", 1000, 0, 0⟩)
      [] 0 = (⟨100, [], []⟩, []) := by
  have hqty : (0 : ℚ) < Finance.roundShares 1 := by
    rw [roundShares_eq_self 1 10000 (by norm_num)]
    norm_num
  have h := C2_buy_insufficient_funds ⟨100, [], []⟩ "AAPL" 1 ⟨"AAPL", 1000, 0, 0⟩
    [] [] 0 (by norm_num) hqty (roundMoney_eq_self 100 10000 (by norm_num))
  have hlt : (100 : ℚ) <
      Finance.roundMoney (Finance.roundMoney 1000 * Finance.roundShares 1) := by
    rw [roundShares_eq_self 1 10000 (by norm_num),
      roundMoney_eq_self 1000 100000 (by norm_num), mul_one,
      roundMoney_eq_self 1000 100000 (by norm_num)]
    norm_num
  exact ⟨h.1.mpr hlt, (h.2.1 hlt).1, (h.2.1 hlt).2⟩

/-- C3: with a valid quote and a positive rounded quantity, a SELL is
rejected with `InsufficientSharesError` exactly when no position for
the symbol exists or `existingShares < quantity`; a rejected request
leaves the ledger rows untouched, and a successful SELL never leaves a
position with a negative share count when the starting state had
none. -/
theorem C3_sell_insufficient_shares (s : LedgerState) (symbol : String)
    (rawQuantity : ℚ) (q : Quote) (hq : 0 < q.current)
    (hqty : 0 < Finance.roundShares rawQuantity) :
    (executeTrade s symbol Side.SELL rawQuantity (some q) = .error .InsufficientShares ↔
      (findPosition s.positions symbol = none ∨
        ((findPosition s.positions symbol).map Position.shares).getD 0 <
          Finance.roundShares rawQuantity)) ∧
    ((findPosition s.positions symbol = none ∨
        ((findPosition s.positions symbol).map Position.shares).getD 0 <
          Finance.roundShares rawQuantity) →
      storeAfterTrade s symbol Side.SELL rawQuantity (some q) = s) ∧
    (∀ s', executeTrade s symbol Side.SELL rawQuantity (some q) = .ok s' →
      (∀ p ∈ s.positions, 0 ≤ p.shares) → ∀ p ∈ s'.positions, 0 ≤ p.shares) := by
  have hsell := executeTrade_sell_eq s symbol rawQuantity q hq hqty
  by_cases hcond : findPosition s.positions symbol = none ∨
      ((findPosition s.positions symbol).map Position.shares).getD 0 <
        Finance.roundShares rawQuantity
  · have herr : executeTrade s symbol Side.SELL rawQuantity (some q) =
        .error .InsufficientShares := by
      rw [hsell]
      simp only [executeSell]
      rw [if_pos (by simpa only [Option.isNone_iff_eq_none] using hcond)]
    refine ⟨⟨fun _ => hcond, fun _ => herr⟩, fun _ => ?_, fun s' h => ?_⟩
    · simp only [storeAfterTrade, herr]
    · rw [herr] at h
      exact absurd h (by simp)
  · have hcond' : ¬ ((findPosition s.positions symbol).isNone = true ∨
        ((findPosition s.positions symbol).map Position.shares).getD 0 <
          Finance.roundShares rawQuantity) := by
      simpa only [Option.isNone_iff_eq_none] using hcond
    have hok : executeTrade s symbol Side.SELL rawQuantity (some q) =
        .ok { cash_balance :=
                Finance.roundMoney (s.cash_balance +
                  Finance.roundMoney (Finance.roundMoney q.current * Finance.roundShares rawQuantity)),
              positions :=
                if Finance.roundShares
                    (((findPosition s.positions symbol).map Position.shares).getD 0 -
                      Finance.roundShares rawQuantity) ≤ 0 then
                  deletePosition s.positions symbol
                else
                  updateShares s.positions symbol
                    (Finance.roundShares
                      (((findPosition s.positions symbol).map Position.shares).getD 0 -
                        Finance.roundShares rawQuantity)),
              trades := s.trades ++
                [⟨symbol, Side.SELL, Finance.roundShares rawQuantity,
                  Finance.roundMoney q.current⟩] } := by
      rw [hsell]
      simp only [executeSell]
      rw [if_neg hcond']
    refine ⟨⟨fun h => ?_, fun h => absurd h hcond⟩, fun h => absurd h hcond,
      fun s' h hinv p hp => ?_⟩
    · rw [hok] at h
      exact absurd h (by simp)
    · rw [hok] at h
      obtain rfl := (Except.ok.inj h).symm
      by_cases hus : Finance.roundShares
          (((findPosition s.positions symbol).map Position.shares).getD 0 -
            Finance.roundShares rawQuantity) ≤ 0
      · rw [if_pos hus] at hp
        exact hinv p (List.mem_of_mem_filter hp)
      · rw [if_neg hus] at hp
        obtain ⟨p0, hp0, rfl⟩ := List.mem_map.mp hp
        by_cases hsym : p0.symbol = symbol
        · rw [if_pos hsym]
          exact le_of_lt (not_le.mp hus)
        · rw [if_neg hsym]
          exact hinv p0 hp0

/-- Witness for C3 at the specification's concrete scenario: selling 5
shares of a symbol with no existing position is rejected with
`InsufficientSharesError` and the ledger rows are unchanged. -/
theorem C3_sell_insufficient_shares_witness :
    executeTrade ⟨100000, [], []⟩ "AAPL" Side.SELL 5 (some ⟨"AAPL", 200, 0, 0⟩) =
      .error .InsufficientShares ∧
    storeAfterTrade ⟨100000, [], []⟩ "AAPL" Side.SELL 5 (some ⟨"AAPL", 200, 0, 0⟩) =
      ⟨100000, [], []⟩ := by
  have hqty : (0 : ℚ) < Finance.roundShares 5 := by
    rw [roundShares_eq_self 5 50000 (by norm_num)]
    norm_num
  have h := C3_sell_insufficient_shares ⟨100000, [], []⟩ "AAPL" 5 ⟨"AAPL", 200, 0, 0⟩
    (by norm_num) hqty
  have hnone : findPosition ([] : List Position) "AAPL" = none := rfl
  exact ⟨h.1.mpr (Or.inl hnone), h.2.1 (Or.inl hnone)⟩

/-- C4: a successful `executeTrade` (BUY or SELL) preserves the
invariant that every position row has a strictly positive — in
particular nonzero — share count: a BUY leaves `updatedShares > 0`
because a rounded quantity `≤ 0` is rejected first, and a SELL whose
rounded remaining share count is `≤ 0` deletes the row. -/
theorem C4_no_zero_share_positions (s : LedgerState) (symbol : String) (side : Side)
    (rawQuantity : ℚ) (quote : Option Quote) (s' : LedgerState)
    (hok : executeTrade s symbol side rawQuantity quote = .ok s')
    (hinv : ∀ p ∈ s.positions, 0 < p.shares) :
    ∀ p ∈ s'.positions, 0 < p.shares ∧ p.shares ≠ 0 := by
  match quote with
  | none => exact absurd hok (by simp [executeTrade])
  | some q =>
    simp only [executeTrade] at hok
    by_cases h1 : q.current ≤ 0
    · rw [if_pos h1] at hok
      exact absurd hok (by simp)
    rw [if_neg h1] at hok
    by_cases h2 : Finance.roundShares rawQuantity ≤ 0
    · rw [if_pos h2] at hok
      exact absurd hok (by simp)
    rw [if_neg h2] at hok
    have hqty : 0 < Finance.roundShares rawQuantity := not_le.mp h2
    have hqge : 1 / 10 ^ 4 ≤ Finance.roundShares rawQuantity :=
      isQ_pos_le (isQ_round rawQuantity 4) hqty
    match side with
    | Side.BUY =>
      simp only [executeBuy] at hok
      by_cases h3 : s.cash_balance <
          Finance.roundMoney (Finance.roundMoney q.current * Finance.roundShares rawQuantity)
      · rw [if_pos h3] at hok
        exact absurd hok (by simp)
      rw [if_neg h3] at hok
      obtain rfl := (Except.ok.inj hok).symm
      have hes : 0 ≤ ((findPosition s.positions symbol).map Position.shares).getD 0 := by
        rcases hfp : findPosition s.positions symbol with _ | p0
        · simp
        · simp only [Option.map_some', Option.getD_some]
          exact (hinv p0 (List.mem_of_find?_eq_some hfp)).le
      have hup : 0 < Finance.roundShares
          (((findPosition s.positions symbol).map Position.shares).getD 0 +
            Finance.roundShares rawQuantity) := by
        apply round_pos
        linarith
      intro p hp
      simp only [upsertPosition] at hp
      by_cases hsome : (findPosition s.positions symbol).isSome = true
      · rw [if_pos hsome] at hp
        obtain ⟨p0, hp0, rfl⟩ := List.mem_map.mp hp
        by_cases hsym : p0.symbol = symbol
        · rw [if_pos hsym]
          exact ⟨hup, ne_of_gt hup⟩
        · rw [if_neg hsym]
          exact ⟨hinv p0 hp0, ne_of_gt (hinv p0 hp0)⟩
      · rw [if_neg hsome] at hp
        rcases List.mem_append.mp hp with hold | hnew
        · exact ⟨hinv p hold, ne_of_gt (hinv p hold)⟩
        · obtain rfl := List.mem_singleton.mp hnew
          exact ⟨hup, ne_of_gt hup⟩
    | Side.SELL =>
      simp only [executeSell] at hok
      by_cases hcond : (findPosition s.positions symbol).isNone = true ∨
          ((findPosition s.positions symbol).map Position.shares).getD 0 <
            Finance.roundShares rawQuantity
      · rw [if_pos hcond] at hok
        exact absurd hok (by simp)
      rw [if_neg hcond] at hok
      obtain rfl := (Except.ok.inj hok).symm
      intro p hp
      by_cases hus : Finance.roundShares
          (((findPosition s.positions symbol).map Position.shares).getD 0 -
            Finance.roundShares rawQuantity) ≤ 0
      · rw [if_pos hus] at hp
        exact ⟨hinv p (List.mem_of_mem_filter hp),
          ne_of_gt (hinv p (List.mem_of_mem_filter hp))⟩
      · rw [if_neg hus] at hp
        obtain ⟨p0, hp0, rfl⟩ := List.mem_map.mp hp
        by_cases hsym : p0.symbol = symbol
        · rw [if_pos hsym]
          exact ⟨not_le.mp hus, ne_of_gt (not_le.mp hus)⟩
        · rw [if_neg hsym]
          exact ⟨hinv p0 hp0, ne_of_gt (hinv p0 hp0)⟩

/-- Witness for C4: the first BUY of the specification's scenario
succeeds and the resulting AAPL row holds 10 shares, a strictly
positive and nonzero count. -/
theorem C4_no_zero_share_positions_witness :
    executeTrade ⟨100000, [], []⟩ "AAPL" Side.BUY 10 (some ⟨"AAPL", 150, 0, 0⟩) =
      .ok ⟨98500, [⟨"AAPL", 10, 150⟩], [⟨"AAPL", Side.BUY, 10, 150⟩]⟩ ∧
    (0 : ℚ) < 10 ∧ (10 : ℚ) ≠ 0 := by
  have r10 : Finance.roundShares (10 : ℚ) = 10 := roundShares_eq_self 10 100000 (by norm_num)
  have m150 : Finance.roundMoney (150 : ℚ) = 150 := roundMoney_eq_self 150 15000 (by norm_num)
  have m1500 : Finance.roundMoney (1500 : ℚ) = 1500 :=
    roundMoney_eq_self 1500 150000 (by norm_num)
  have m98500 : Finance.roundMoney (98500 : ℚ) = 98500 :=
    roundMoney_eq_self 98500 9850000 (by norm_num)
  have hok : executeTrade ⟨100000, [], []⟩ "AAPL" Side.BUY 10 (some ⟨"AAPL", 150, 0, 0⟩) =
      .ok ⟨98500, [⟨"AAPL", 10, 150⟩], [⟨"AAPL", Side.BUY, 10, 150⟩]⟩ := by
    norm_num [executeTrade, executeBuy, findPosition, upsertPosition, List.find?,
      r10, m150, m1500, m98500]
  have happ := C4_no_zero_share_positions ⟨100000, [], []⟩ "AAPL" Side.BUY 10
    (some ⟨"AAPL", 150, 0, 0⟩) ⟨98500, [⟨"AAPL", 10, 150⟩], [⟨"AAPL", Side.BUY, 10, 150⟩]⟩
    hok (by simp) ⟨"AAPL", 10, 150⟩ (List.mem_singleton.mpr rfl)
  exact ⟨hok, happ.1, happ.2⟩

/-- C5: a successful SELL never changes the average cost of any
surviving position row: the multiset of `(symbol, avgCost)` pairs after
the trade is a sublist of the one before (rows are either kept with
`avg_cost` untouched — only the share count updated — or deleted on
full liquidation). -/
theorem C5_sell_avg_cost_frame (s : LedgerState) (symbol : String) (rawQuantity : ℚ)
    (quote : Option Quote) (s' : LedgerState)
    (hok : executeTrade s symbol Side.SELL rawQuantity quote = .ok s') :
    List.Sublist (s'.positions.map (fun p => (p.symbol, p.avg_cost)))
      (s.positions.map (fun p => (p.symbol, p.avg_cost))) := by
  match quote with
  | none => exact absurd hok (by simp [executeTrade])
  | some q =>
    simp only [executeTrade] at hok
    by_cases h1 : q.current ≤ 0
    · rw [if_pos h1] at hok
      exact absurd hok (by simp)
    rw [if_neg h1] at hok
    by_cases h2 : Finance.roundShares rawQuantity ≤ 0
    · rw [if_pos h2] at hok
      exact absurd hok (by simp)
    rw [if_neg h2] at hok
    simp only [executeSell] at hok
    by_cases hcond : (findPosition s.positions symbol).isNone = true ∨
        ((findPosition s.positions symbol).map Position.shares).getD 0 <
          Finance.roundShares rawQuantity
    · rw [if_pos hcond] at hok
      exact absurd hok (by simp)
    rw [if_neg hcond] at hok
    obtain rfl := (Except.ok.inj hok).symm
    by_cases hus : Finance.roundShares
        (((findPosition s.positions symbol).map Position.shares).getD 0 -
          Finance.roundShares rawQuantity) ≤ 0
    · rw [if_pos hus]
      exact List.Sublist.map _ (List.filter_sublist s.positions)
    · rw [if_neg hus]
      have hmap : (updateShares s.positions symbol
          (Finance.roundShares
            (((findPosition s.positions symbol).map Position.shares).getD 0 -
              Finance.roundShares rawQuantity))).map (fun p => (p.symbol, p.avg_cost)) =
          s.positions.map (fun p => (p.symbol, p.avg_cost)) := by
        simp only [updateShares, List.map_map]
        apply List.map_congr_left
        intro a _
        by_cases hsym : a.symbol = symbol
        · simp [Function.comp, hsym]
        · simp [Function.comp, hsym]
      rw [hmap]

/-- Witness for C5: a successful partial SELL (10 AAPL at avg cost 150,
selling 5 at price 200) keeps the row's `(symbol, avgCost)` pair
unchanged. -/
theorem C5_sell_avg_cost_frame_witness :
    executeTrade ⟨1000, [⟨"AAPL", 10, 150⟩], []⟩ "AAPL" Side.SELL 5
        (some ⟨"AAPL", 200, 0, 0⟩) =
      .ok ⟨2000, [⟨"AAPL", 5, 150⟩], [⟨"AAPL", Side.SELL, 5, 200⟩]⟩ ∧
    List.Sublist
      (([⟨"AAPL", 5, 150⟩] : List Position).map (fun p => (p.symbol, p.avg_cost)))
      (([⟨"AAPL", 10, 150⟩] : List Position).map (fun p => (p.symbol, p.avg_cost))) := by
  have r5 : Finance.roundShares (5 : ℚ) = 5 := roundShares_eq_self 5 50000 (by norm_num)
  have m200 : Finance.roundMoney (200 : ℚ) = 200 := roundMoney_eq_self 200 20000 (by norm_num)
  have m1000 : Finance.roundMoney (1000 : ℚ) = 1000 :=
    roundMoney_eq_self 1000 100000 (by norm_num)
  have m2000 : Finance.roundMoney (2000 : ℚ) = 2000 :=
    roundMoney_eq_self 2000 200000 (by norm_num)
  have hok : executeTrade ⟨1000, [⟨"AAPL", 10, 150⟩], []⟩ "AAPL" Side.SELL 5
      (some ⟨"AAPL", 200, 0, 0⟩) =
      .ok ⟨2000, [⟨"AAPL", 5, 150⟩], [⟨"AAPL", Side.SELL, 5, 200⟩]⟩ := by
    norm_num [executeTrade, executeSell, findPosition, updateShares, List.find?,
      r5, m200, m1000, m2000]
  exact ⟨hok, C5_sell_avg_cost_frame ⟨1000, [⟨"AAPL", 10, 150⟩], []⟩ "AAPL" 5
    (some ⟨"AAPL", 200, 0, 0⟩) ⟨2000, [⟨"AAPL", 5, 150⟩], [⟨"AAPL", Side.SELL, 5, 200⟩]⟩ hok⟩

/-- C1: the four-step AAPL scenario of the specification, executed by
`executeTrade` from cash 100000 and no positions with quotes 150, 180,
200, 210: after each step the cash balance and the AAPL position are
exactly as the specification states, and the final SELL deletes the
position. -/
theorem C1_trade_scenario :
    executeTrade ⟨100000, [], []⟩ "AAPL" Side.BUY 10
        (some ⟨"AAPL", 150, 0, 0⟩) =
      .ok ⟨98500, [⟨"AAPL", 10, 150⟩], [⟨"AAPL", Side.BUY, 10, 150⟩]⟩ ∧
    executeTrade ⟨98500, [⟨"AAPL", 10, 150⟩], [⟨"AAPL", Side.BUY, 10, 150⟩]⟩
        "AAPL" Side.BUY 5 (some ⟨"AAPL", 180, 0, 0⟩) =
      .ok ⟨97600, [⟨"AAPL", 15, 160⟩],
        [⟨"AAPL", Side.BUY, 10, 150⟩, ⟨"AAPL", Side.BUY, 5, 180⟩]⟩ ∧
    executeTrade ⟨97600, [⟨"AAPL", 15, 160⟩],
        [⟨"AAPL", Side.BUY, 10, 150⟩, ⟨"AAPL", Side.BUY, 5, 180⟩]⟩
        "AAPL" Side.SELL 5 (some ⟨"AAPL", 200, 0, 0⟩) =
      .ok ⟨98600, [⟨"AAPL", 10, 160⟩],
        [⟨"AAPL", Side.BUY, 10, 150⟩, ⟨"AAPL", Side.BUY, 5, 180⟩,
         ⟨"AAPL", Side.SELL, 5, 200⟩]⟩ ∧
    executeTrade ⟨98600, [⟨"AAPL", 10, 160⟩],
        [⟨"AAPL", Side.BUY, 10, 150⟩, ⟨"AAPL", Side.BUY, 5, 180⟩,
         ⟨"AAPL", Side.SELL, 5, 200⟩]⟩
        "AAPL" Side.SELL 10 (some ⟨"AAPL", 210, 0, 0⟩) =
      .ok ⟨100700, [],
        [⟨"AAPL", Side.BUY, 10, 150⟩, ⟨"AAPL", Side.BUY, 5, 180⟩,
         ⟨"AAPL", Side.SELL, 5, 200⟩, ⟨"AAPL", Side.SELL, 10, 210⟩]⟩ := by
  have r5 : Finance.roundShares (5 : ℚ) = 5 := roundShares_eq_self 5 50000 (by norm_num)
  have r10 : Finance.roundShares (10 : ℚ) = 10 := roundShares_eq_self 10 100000 (by norm_num)
  have r15 : Finance.roundShares (15 : ℚ) = 15 := roundShares_eq_self 15 150000 (by norm_num)
  have m150 : Finance.roundMoney (150 : ℚ) = 150 := roundMoney_eq_self 150 15000 (by norm_num)
  have m160 : Finance.roundMoney (160 : ℚ) = 160 := roundMoney_eq_self 160 16000 (by norm_num)
  have m180 : Finance.roundMoney (180 : ℚ) = 180 := roundMoney_eq_self 180 18000 (by norm_num)
  have m200 : Finance.roundMoney (200 : ℚ) = 200 := roundMoney_eq_self 200 20000 (by norm_num)
  have m210 : Finance.roundMoney (210 : ℚ) = 210 := roundMoney_eq_self 210 21000 (by norm_num)
  have m900 : Finance.roundMoney (900 : ℚ) = 900 := roundMoney_eq_self 900 90000 (by norm_num)
  have m1000 : Finance.roundMoney (1000 : ℚ) = 1000 :=
    roundMoney_eq_self 1000 100000 (by norm_num)
  have m1500 : Finance.roundMoney (1500 : ℚ) = 1500 :=
    roundMoney_eq_self 1500 150000 (by norm_num)
  have m2100 : Finance.roundMoney (2100 : ℚ) = 2100 :=
    roundMoney_eq_self 2100 210000 (by norm_num)
  have m97600 : Finance.roundMoney (97600 : ℚ) = 97600 :=
    roundMoney_eq_self 97600 9760000 (by norm_num)
  have m98500 : Finance.roundMoney (98500 : ℚ) = 98500 :=
    roundMoney_eq_self 98500 9850000 (by norm_num)
  have m98600 : Finance.roundMoney (98600 : ℚ) = 98600 :=
    roundMoney_eq_self 98600 9860000 (by norm_num)
  have m100700 : Finance.roundMoney (100700 : ℚ) = 100700 :=
    roundMoney_eq_self 100700 10070000 (by norm_num)
  have r0 : Finance.roundShares (0 : ℚ) = 0 := roundShares_eq_self 0 0 (by norm_num)
  refine ⟨?_, ?_, ?_, ?_⟩ <;>
    norm_num [executeTrade, executeBuy, executeSell, findPosition, upsertPosition,
      deletePosition, updateShares, List.find?, r5, r10, r15, r0, m150, m160, m180,
      m200, m210, m900, m1000, m1500, m2100, m97600, m98500, m98600, m100700]


theorem buyFold_invariant (orders : List (ℚ × ℚ))
    (h : ∀ t ∈ orders, 0 < t.1 ∧ IsQ 4 t.1) :
    (buyFold orders).1 = totalQty orders ∧ IsQ 4 (totalQty orders) ∧
    0 ≤ totalQty orders ∧ (totalQty orders = 0 → totalCost orders = 0) ∧
    |(buyFold orders).2 - totalCost orders / totalQty orders| ≤
      orders.length * (1 / 200) := by
  induction orders using List.reverseRecOn with
  | nil =>
    refine ⟨rfl, IsQ.zero 4, le_refl 0, fun _ => rfl, ?_⟩
    simp [buyFold, totalQty, totalCost]
  | append_singleton ts t ih =>
    have hts : ∀ u ∈ ts, 0 < u.1 ∧ IsQ 4 u.1 :=
      fun u hu => h u (List.mem_append_left _ hu)
    have ht : 0 < t.1 ∧ IsQ 4 t.1 :=
      h t (List.mem_append_right _ (List.mem_singleton.mpr rfl))
    obtain ⟨hS, hQ4, hS0, hW0, herr⟩ := ih hts
    have hfold : buyFold (ts ++ [t]) = buyStep (buyFold ts) t := by
      simp [buyFold, List.foldl_append]
    have hqty : totalQty (ts ++ [t]) = totalQty ts + t.1 := by
      simp [totalQty]
    have hcost : totalCost (ts ++ [t]) = totalCost ts + t.1 * t.2 := by
      simp [totalCost]
    have hS'Q : IsQ 4 (totalQty ts + t.1) := hQ4.add ht.2
    have hSpos' : 0 < totalQty ts + t.1 := by linarith [ht.1]
    have hrs : Finance.roundShares ((buyFold ts).1 + t.1) = totalQty ts + t.1 := by
      rw [hS]
      exact round_eq_self hS'Q
    have hshares : (buyFold (ts ++ [t])).1 = totalQty (ts ++ [t]) := by
      rw [hfold, hqty]
      exact hrs
    refine ⟨hshares, hqty ▸ hS'Q, by rw [hqty]; linarith, ?_, ?_⟩
    · intro hz
      rw [hqty] at hz
      exact absurd hz (ne_of_gt hSpos')
    · have hA' : (buyFold (ts ++ [t])).2 =
          Finance.roundMoney ((totalQty ts * (buyFold ts).2 + t.1 * t.2) /
            (totalQty ts + t.1)) := by
        rw [hfold]
        simp only [buyStep]
        rw [hrs, hS]
      set S := totalQty ts with hSdef
      set A := (buyFold ts).2 with hAdef
      set W := totalCost ts with hWdef
      set D := (S * A + t.1 * t.2) / (S + t.1) with hD
      have h1 : |Finance.roundMoney D - D| ≤ 1 / 200 := by
        have := abs_round_sub_le D 2
        have h200 : (1 : ℚ) / (2 * 10 ^ 2) = 1 / 200 := by norm_num
        rw [h200] at this
        exact this
      have habs0 : 0 ≤ |A - W / S| := abs_nonneg _
      have hnum : |S * A - W| ≤ S * |A - W / S| := by
        by_cases hs0 : S = 0
        · have hw := hW0 hs0
          rw [hs0, hw]
          simp
        · have hSpos : 0 < S := lt_of_le_of_ne hS0 (Ne.symm hs0)
          have hfactor : S * (A - W / S) = S * A - W := by
            field_simp
            try ring
          rw [← hfactor, abs_mul, abs_of_pos hSpos]
      have h2 : |D - (W + t.1 * t.2) / (S + t.1)| ≤ |A - W / S| := by
        have hDdiff : D - (W + t.1 * t.2) / (S + t.1) = (S * A - W) / (S + t.1) := by
          rw [hD]
          field_simp
          try ring
        rw [hDdiff, abs_div, abs_of_pos hSpos']
        calc |S * A - W| / (S + t.1)
            ≤ (S * |A - W / S|) / (S + t.1) := (div_le_div_right hSpos').mpr hnum
          _ ≤ ((S + t.1) * |A - W / S|) / (S + t.1) :=
              (div_le_div_right hSpos').mpr
                (mul_le_mul_of_nonneg_right (by linarith [ht.1]) habs0)
          _ = |A - W / S| := by
              rw [mul_comm, mul_div_assoc, div_self (ne_of_gt hSpos'), mul_one]
      have htri : |Finance.roundMoney D - (W + t.1 * t.2) / (S + t.1)| ≤
          |Finance.roundMoney D - D| + |D - (W + t.1 * t.2) / (S + t.1)| :=
        abs_sub_le _ _ _
      have hlen : ((ts ++ [t]).length : ℚ) = (ts.length : ℚ) + 1 := by
        simp
      rw [hA', hqty, hcost, hlen]
      calc |Finance.roundMoney D - (W + t.1 * t.2) / (S + t.1)|
          ≤ |Finance.roundMoney D - D| + |D - (W + t.1 * t.2) / (S + t.1)| := htri
        _ ≤ 1 / 200 + |A - W / S| := add_le_add h1 h2
        _ ≤ 1 / 200 + ts.length * (1 / 200) := by linarith [herr]
        _ = ((ts.length : ℚ) + 1) * (1 / 200) := by ring

/-- C6: after any sequence of BUY orders on one symbol starting from no
position, the stored share count equals `Σ qty_i` exactly, and the
stored average cost differs from the true weighted average
`Σ(qty_i * price_i) / Σ qty_i` by at most half a cent per buy
(`n * 1/200` after `n` buys), the accumulated per-step rounding
tolerance of `updatedAvgCost = round2(...)`. -/
theorem C6_weighted_average_cost (orders : List (ℚ × ℚ))
    (h : ∀ t ∈ orders, 0 < t.1 ∧ IsQ 4 t.1) :
    (buyFold orders).1 = totalQty orders ∧
    |(buyFold orders).2 - totalCost orders / totalQty orders| ≤
      orders.length * (1 / 200) := by
  obtain ⟨h1, -, -, -, h5⟩ := buyFold_invariant orders h
  exact ⟨h1, h5⟩

/-- Witness for C6 at the buys of the specification's scenario: after
BUY 10 at 150 and BUY 5 at 180 the stored pair is `(15, 160)` and
`160` is within `2 * 1/200` of the true weighted average `2400 / 15`. -/
theorem C6_weighted_average_cost_witness :
    (buyFold [(10, 150), (5, 180)]).1 = totalQty [(10, 150), (5, 180)] ∧
    |(buyFold [(10, 150), (5, 180)]).2 -
        totalCost [(10, 150), (5, 180)] / totalQty [(10, 150), (5, 180)]| ≤
      ([(10, 150), (5, 180)] : List (ℚ × ℚ)).length * (1 / 200) := by
  apply C6_weighted_average_cost
  intro t ht
  simp only [List.mem_cons, List.mem_singleton, List.not_mem_nil, or_false] at ht
  rcases ht with rfl | rfl
  · exact ⟨by norm_num, 100000, by norm_num⟩
  · exact ⟨by norm_num, 50000, by norm_num⟩

theorem roundMoney_zero : Finance.roundMoney 0 = 0 :=
  round_eq_self (IsQ.zero 2)

theorem roundMoney_isQ_eq {x : ℚ} (h : IsQ 2 x) : Finance.roundMoney x = x :=
  round_eq_self h

/-- C7 counterexample: for position `{shares 1, avgCost 10}` with the
quote map empty, the holding computed by `calculateHoldings` has
`gain = -10`, not `0` — a missing quote zeroes the market value but the
gain becomes `-costBasis`. -/
theorem C7_missing_quote_gain_counterexample :
    (calculateHoldings [⟨"AAPL", 1, 10⟩] []).map Holding.gain = [-10] ∧
    (calculateHoldings [⟨"AAPL", 1, 10⟩] []).map Holding.gain ≠ [0] := by
  have mn10 : Finance.roundMoney (-10 : ℚ) = -10 :=
    roundMoney_eq_self (-10) (-1000) (by norm_num)
  constructor
  · norm_num [calculateHoldings, quotesFind, List.find?, mn10]
  · norm_num [calculateHoldings, quotesFind, List.find?, mn10]

/-- C7 (amended): for every position whose symbol is absent from the
quote map, `calculateHoldings` still produces its holding (one holding
per position, so partial quote failure degrades gracefully per-symbol)
with `marketValue = 0`, `currentPrice = 0` and `dailyPercent = 0`, and
its `dailyChange` contribution in `calculateNetWorth` is `0`; its
`gain`, however, is `round2(-(avgCost * shares))`, i.e. minus the cost
basis rather than `0`. -/
theorem C7_missing_quote_amended (positions : List Position) (quotes : List Quote)
    (i : ℕ) (p : Position) (hp : positions[i]? = some p)
    (hq : quotesFind quotes p.symbol = none) :
    (calculateHoldings positions quotes).length = positions.length ∧
    ∃ h : Holding, (calculateHoldings positions quotes)[i]? = some h ∧
      h.marketValue = 0 ∧ h.currentPrice = 0 ∧ h.dailyPercent = 0 ∧
      h.gain = Finance.roundMoney (-(p.avg_cost * p.shares)) ∧
      dailyChangeTerm quotes h = 0 := by
  refine ⟨by simp [calculateHoldings], ?_⟩
  simp only [calculateHoldings, List.getElem?_map, hp, Option.map_some']
  refine ⟨_, rfl, ?_, ?_, ?_, ?_, ?_⟩
  · simp only [hq, zero_mul]
    exact roundMoney_zero
  · simp only [hq]
    exact roundMoney_zero
  · simp only [hq]
    exact roundMoney_zero
  · simp only [hq, zero_mul]
    congr 1
    ring
  · simp only [dailyChangeTerm, hq, zero_mul]

/-- Witness for C7's amended statement at position
`{symbol AAPL, shares 1, avgCost 10}` and an empty quote map. -/
theorem C7_missing_quote_amended_witness :
    (calculateHoldings [⟨"AAPL", 1, 10⟩] []).length = 1 ∧
    ((calculateHoldings [⟨"AAPL", 1, 10⟩] [])[0]?.map Holding.marketValue) = some 0 ∧
    ((calculateHoldings [⟨"AAPL", 1, 10⟩] [])[0]?.map Holding.gain) =
      some (Finance.roundMoney (-(10 * 1))) := by
  obtain ⟨hlen, h, hh, hmv, -, -, hg, -⟩ :=
    C7_missing_quote_amended [⟨"AAPL", 1, 10⟩] [] 0 ⟨"AAPL", 1, 10⟩ rfl rfl
  exact ⟨hlen, by rw [hh, Option.map_some', hmv], by rw [hh, Option.map_some', hg]⟩

theorem foldl_add_map {α : Type} (f : α → ℚ) (l : List α) (a : ℚ) :
    l.foldl (fun s x => s + f x) a = a + (l.map f).sum := by
  induction l generalizing a with
  | nil => simp
  | cons x xs ih => simp [ih, add_assoc]

theorem isQ_list_sum {d : ℕ} (l : List ℚ) (h : ∀ x ∈ l, IsQ d x) :
    IsQ d l.sum := by
  induction l with
  | nil => simpa using IsQ.zero d
  | cons x xs ih =>
    rw [List.sum_cons]
    exact (h x (List.mem_cons_self x xs)).add
      (ih fun y hy => h y (List.mem_cons_of_mem x hy))

/-- C8: `calculateNetWorth` returns
`holdingsValue = round2(Σ marketValue)`,
`netWorth = round2(cashBalance + Σ marketValue)`,
`dailyChange = round2(Σ quote.change * shares)` (0 for holdings
without a quote) and
`dailyChangePercent = round2(dailyChange/priorNetWorth*100)` with
`priorNetWorth = netWorth - dailyChange` when `priorNetWorth > 0` and
`0` otherwise; and on 2-decimal inputs the identity
`netWorth = cashBalance + holdingsValue` holds exactly. -/
theorem C8_summary_identities (cashBalance : ℚ) (holdings : List Holding)
    (quotes : List Quote) :
    (calculateNetWorth cashBalance holdings quotes).holdingsValue =
      Finance.roundMoney ((holdings.map Holding.marketValue).sum) ∧
    (calculateNetWorth cashBalance holdings quotes).netWorth =
      Finance.roundMoney (cashBalance + (holdings.map Holding.marketValue).sum) ∧
    (calculateNetWorth cashBalance holdings quotes).dailyChange =
      Finance.roundMoney ((holdings.map (dailyChangeTerm quotes)).sum) ∧
    (calculateNetWorth cashBalance holdings quotes).dailyChangePercent =
      Finance.roundMoney
        (if cashBalance + (holdings.map Holding.marketValue).sum -
            (holdings.map (dailyChangeTerm quotes)).sum > 0 then
          (holdings.map (dailyChangeTerm quotes)).sum /
            (cashBalance + (holdings.map Holding.marketValue).sum -
              (holdings.map (dailyChangeTerm quotes)).sum) * 100
        else 0) ∧
    (IsQ 2 cashBalance → (∀ h ∈ holdings, IsQ 2 h.marketValue) →
      (calculateNetWorth cashBalance holdings quotes).netWorth =
        cashBalance + (calculateNetWorth cashBalance holdings quotes).holdingsValue) := by
  have hv : holdings.foldl (fun sum h => sum + h.marketValue) 0 =
      (holdings.map Holding.marketValue).sum := by
    rw [foldl_add_map, zero_add]
  have hd : holdings.foldl (fun sum h => sum + dailyChangeTerm quotes h) 0 =
      (holdings.map (dailyChangeTerm quotes)).sum := by
    rw [foldl_add_map, zero_add]
  refine ⟨?_, ?_, ?_, ?_, ?_⟩
  · simp only [calculateNetWorth, hv]
  · simp only [calculateNetWorth, hv]
  · simp only [calculateNetWorth, hd]
  · simp only [calculateNetWorth, hv, hd]
  · intro hcash hmv
    have hS : IsQ 2 ((holdings.map Holding.marketValue).sum) := by
      apply isQ_list_sum
      intro x hx
      obtain ⟨h, hh, rfl⟩ := List.mem_map.mp hx
      exact hmv h hh
    simp only [calculateNetWorth, hv]
    rw [roundMoney_isQ_eq (hcash.add hS), roundMoney_isQ_eq hS]

/-- Witness for C8's exact identity on 2-decimal inputs: with cash 100
and no holdings, `netWorth = cashBalance + holdingsValue`. -/
theorem C8_summary_identities_witness :
    (calculateNetWorth 100 [] []).netWorth =
      100 + (calculateNetWorth 100 [] []).holdingsValue :=
  (C8_summary_identities 100 [] []).2.2.2.2 ⟨10000, by norm_num⟩ (by simp)

/-- C9: `maybeCreateSnapshot` inserts a new snapshot exactly when no
snapshot exists or the latest one's age in minutes is at least the
configured interval, and otherwise returns the existing latest snapshot
with the store untouched; consequently two calls within the interval
starting from an empty store persist exactly one row.  The configurable
interval defaults to 60 minutes. -/
theorem C9_snapshot_throttle (snaps : List Snapshot)
    (netWorth now intervalMinutes : ℚ) :
    (getLatestSnapshot snaps = none →
      maybeCreateSnapshot snaps netWorth now intervalMinutes =
        ({ net_worth := Finance.roundMoney netWorth, timestamp := now },
         insertSnapshot snaps netWorth now) ∧
      (maybeCreateSnapshot snaps netWorth now intervalMinutes).2.length =
        snaps.length + 1) ∧
    (∀ latest, getLatestSnapshot snaps = some latest →
      ((now - latest.timestamp) / (1000 * 60) ≥ intervalMinutes →
        maybeCreateSnapshot snaps netWorth now intervalMinutes =
          ({ net_worth := Finance.roundMoney netWorth, timestamp := now },
           insertSnapshot snaps netWorth now) ∧
        (maybeCreateSnapshot snaps netWorth now intervalMinutes).2.length =
          snaps.length + 1) ∧
      ((now - latest.timestamp) / (1000 * 60) < intervalMinutes →
        maybeCreateSnapshot snaps netWorth now intervalMinutes = (latest, snaps))) ∧
    (∀ netWorth2 now2, (now2 - now) / (1000 * 60) < intervalMinutes →
      (maybeCreateSnapshot
          (maybeCreateSnapshot ([] : List Snapshot) netWorth now intervalMinutes).2
          netWorth2 now2 intervalMinutes).2.length = 1) ∧
    snapshotEveryMinutesDefault = 60 := by
  refine ⟨fun hn => ?_, fun latest hl => ⟨fun hge => ?_, fun hlt => ?_⟩,
    fun netWorth2 now2 hlt => ?_, rfl⟩
  · constructor
    · simp only [maybeCreateSnapshot, hn]
    · simp only [maybeCreateSnapshot, hn, insertSnapshot, List.length_cons]
  · constructor
    · simp only [maybeCreateSnapshot, hl, if_pos hge]
    · simp only [maybeCreateSnapshot, hl, if_pos hge, insertSnapshot, List.length_cons]
  · simp only [maybeCreateSnapshot, hl, if_neg (not_le.mpr hlt)]
  · have h1 : maybeCreateSnapshot ([] : List Snapshot) netWorth now intervalMinutes =
        ({ net_worth := Finance.roundMoney netWorth, timestamp := now },
         [{ net_worth := Finance.roundMoney netWorth, timestamp := now }]) := by
      simp only [maybeCreateSnapshot, getLatestSnapshot, List.head?, insertSnapshot]
    rw [h1]
    simp only [maybeCreateSnapshot, getLatestSnapshot, List.head?]
    rw [if_neg (not_le.mpr hlt)]
    rfl

/-- Witness for C9: a first snapshot at time 0 followed by a second
call one minute later (interval 60 minutes) leaves exactly one
persisted row. -/
theorem C9_snapshot_throttle_witness :
    (maybeCreateSnapshot
        (maybeCreateSnapshot ([] : List Snapshot) 100 0 60).2 100 60000 60).2.length =
      1 :=
  (C9_snapshot_throttle [] 100 0 60).2.2.1 100 60000 (by norm_num)

/-- C10: when the initial read of `ensureAccount` finds no account and
the insert collides with a concurrently created row (Postgres unique
violation, SQLSTATE 23505), `ensureAccount` re-reads and returns the
already-existing account instead of propagating the error; in every
case it returns an account and the table keeps exactly one row — it
never creates a second account for a user that already has one.
`rows0` is the table at the first read, `rows1` the table at insert
time; the hypotheses say the table only grows between the two reads and
the unique index admits at most one row. -/
theorem C10_ensure_account_concurrent (rows0 rows1 : List Account) (fresh : Account)
    (hmono : rows0 ≠ [] → rows1 = rows0) (h1 : rows1.length ≤ 1) :
    (∀ a, rows0 = [] → getAccount rows1 = some a →
      ensureAccount rows0 rows1 fresh = .ok (a, rows1)) ∧
    (∃ a rows', ensureAccount rows0 rows1 fresh = .ok (a, rows') ∧
      rows'.length = 1 ∧ getAccount rows' = some a) := by
  constructor
  · intro a h0 hget
    subst h0
    match rows1, hget with
    | b :: bs, hget =>
      simp only [getAccount, List.head?, Option.some.injEq] at hget
      subst hget
      simp only [ensureAccount, getAccount, List.head?, insertAccount]
      simp
  · match rows0, hmono with
    | [], _ =>
      match rows1, h1 with
      | [], _ =>
        exact ⟨fresh, [fresh], rfl, rfl, rfl⟩
      | [b], _ =>
        refine ⟨b, [b], ?_, rfl, rfl⟩
        simp only [ensureAccount, getAccount, List.head?, insertAccount]
        simp
    | a :: as, hmono =>
      have hr : rows1 = a :: as := hmono (by simp)
      subst hr
      have has : as = [] := by
        simpa using h1
      subst has
      exact ⟨a, [a], rfl, rfl, rfl⟩

/-- Witness for C10: first read sees no account, a concurrent request
has inserted one with balance 50 by insert time, and `ensureAccount`
returns that account with the table unchanged. -/
theorem C10_ensure_account_concurrent_witness :
    ensureAccount [] [⟨50⟩] ⟨100000⟩ = .ok (⟨50⟩, [⟨50⟩]) := by
  have h := C10_ensure_account_concurrent [] [⟨50⟩] ⟨100000⟩
    (fun hc => absurd rfl hc) (by norm_num)
  exact h.1 ⟨50⟩ rfl rfl

end PaperTrader
